import Mathlib

/-!
Verification of the generic-resource reconciler of terraform-provider-azapi
(azurermg). The JSON values handled by the provider (Go `interface{}` values
produced by `encoding/json`) are embedded as a mutual inductive type; objects
are association lists in document order. Go maps cannot hold two entries with
the same key, so well-formed documents have pairwise-distinct keys at every
object; `Json.wf` captures that invariant.

The reconciler flow (`resourceAzureGenericResourceCreateUpdate`,
`resourceAzureGenericResourceRead`, `resourceAzureGenericResourceDelete` in
`internal/services/azurerm_generic_resource.go`) is embedded as pure functions
over oracle inputs standing for the remote client's responses. The helper
packages `utils`, `parse` and `azure` are not part of the provided sources;
their definitions are modelled from the specification and are marked
`Modelled from the spec:` in their doc comments.
-/

mutual

inductive Json where
  | null : Json
  | bool (b : Bool) : Json
  | num (n : Int) : Json
  | str (s : String) : Json
  | arr (elems : JsonList) : Json
  | obj (fields : JsonObj) : Json
deriving Repr

inductive JsonList where
  | nil : JsonList
  | cons (hd : Json) (tl : JsonList) : JsonList
deriving Repr

inductive JsonObj where
  | nil : JsonObj
  | cons (k : String) (v : Json) (tl : JsonObj) : JsonObj
deriving Repr

end

/-- First value stored under key `k`, mirroring Go map indexing `m[k]`. -/
def JsonObj.lookup (k : String) : JsonObj → Option Json
  | .nil => none
  | .cons k2 v tl => if k2 = k then some v else JsonObj.lookup k tl

/-- Key membership, mirroring Go's `_, ok := m[k]`. -/
def JsonObj.hasKey (k : String) (o : JsonObj) : Bool :=
  (o.lookup k).isSome

def JsonObj.append : JsonObj → JsonObj → JsonObj
  | .nil, os => os
  | .cons k v tl, os => .cons k v (JsonObj.append tl os)

/-- Entries of `os` whose key does not occur in `bs`, in order. -/
def JsonObj.filterNotIn (bs : JsonObj) : JsonObj → JsonObj
  | .nil => .nil
  | .cons k v tl =>
      if bs.hasKey k then JsonObj.filterNotIn bs tl
      else .cons k v (JsonObj.filterNotIn bs tl)

/-- Element at position `n`, mirroring Go slice indexing. -/
def JsonList.getAt : JsonList → Nat → Option Json
  | .nil, _ => none
  | .cons x _, 0 => some x
  | .cons _ tl, n + 1 => JsonList.getAt tl n

mutual

/-- Well-formedness of an embedded Go JSON value: at every object, keys are
pairwise distinct (a Go `map[string]interface{}` cannot hold duplicate keys). -/
def Json.wf : Json → Bool
  | .null => true
  | .bool _ => true
  | .num _ => true
  | .str _ => true
  | .arr l => l.wf
  | .obj o => o.wf

def JsonList.wf : JsonList → Bool
  | .nil => true
  | .cons x tl => x.wf && tl.wf

def JsonObj.wf : JsonObj → Bool
  | .nil => true
  | .cons k v tl => !(tl.hasKey k) && v.wf && tl.wf

end

mutual

/-- Modelled from the spec: `utils.GetMergedJson` (§4.2 `Merge(base, overlay)`),
not under the provided sources. Recursive structural merge: a `nil` base yields
the overlay unchanged and vice versa; when both sides are objects they are
merged key-recursively; otherwise the overlay replaces the base wholesale
(arrays are never merged element-wise). -/
def GetMergedJson : Json → Json → Json
  | .null, overlay => overlay
  | base, .null => base
  | .obj bs, .obj os =>
      .obj (JsonObj.append (mergeObjValues bs os) (JsonObj.filterNotIn bs os))
  | _, overlay => overlay

/-- Per-entry treatment of the base object's fields during `GetMergedJson`: a field
also present in the overlay is merged recursively with the overlay's value, a
field absent from the overlay is kept as-is. -/
def mergeObjValues : JsonObj → JsonObj → JsonObj
  | .nil, _ => .nil
  | .cons k v tl, os =>
      match os.lookup k with
      | some w => .cons k (GetMergedJson v w) (mergeObjValues tl os)
      | none => .cons k v (mergeObjValues tl os)

end

mutual

/-- Modelled from the spec: `utils.GetUpdatedJson` (§4.3 `ReconcileRead`), not
under the provided sources. For each key present in the desired value, if the
remote also has it the remote's value is taken — recursively by the same rule
when both sides are objects — and if the remote lacks it the desired value is
kept; keys present only in the remote are dropped. -/
def GetUpdatedJson : Json → Json → Json
  | .obj ds, .obj rs => .obj (updatedObjValues ds rs)
  | _, remote => remote

/-- Per-entry treatment of the desired object's fields during `GetUpdatedJson`. -/
def updatedObjValues : JsonObj → JsonObj → JsonObj
  | .nil, _ => .nil
  | .cons k v tl, rs =>
      match rs.lookup k with
      | some w => .cons k (GetUpdatedJson v w) (updatedObjValues tl rs)
      | none => .cons k v (updatedObjValues tl rs)

end

/-- Top-level key removal on an object's fields. -/
def JsonObj.stripKeys : JsonObj → List String → JsonObj
  | .nil, _ => .nil
  | .cons k v tl, keys =>
      if keys.contains k then JsonObj.stripKeys tl keys
      else .cons k v (JsonObj.stripKeys tl keys)

/-- Modelled from the spec: `utils.GetIgnoredJson` (§4.2 `StripKeys`), not
under the provided sources. Removes the named top-level keys; used only when
seeding a body during first import. -/
def GetIgnoredJson : Json → List String → Json
  | .obj o, keys => .obj (o.stripKeys keys)
  | j, _ => j

/-- A resolved path segment: an object key or an array index. -/
inductive Seg where
  | key (k : String) : Seg
  | idx (n : Nat) : Seg
deriving DecidableEq, Repr

/-- Decimal digit value of a character, or `none` for a non-digit. -/
def charDigit (c : Char) : Option Nat :=
  if '0' ≤ c && c ≤ '9' then some (c.toNat - '0'.toNat) else none

/-- Decimal number denoted by a non-empty run of digit characters. -/
def digitsToNat (cs : List Char) : Option Nat :=
  match cs with
  | [] => none
  | _ =>
      cs.foldl
        (fun acc c =>
          match acc, charDigit c with
          | some n, some d => some (n * 10 + d)
          | _, _ => none)
        (some 0)

/-- A bracket suffix `N]` of an index segment: digits terminated by `]`. -/
def parseIdx (cs : List Char) : Option Nat :=
  match cs.getLast? with
  | some ']' => digitsToNat cs.dropLast
  | _ => none

/-- One `.`-separated part of a path: a key optionally followed by bracketed
numeric indices, e.g. `names[0][1]`. -/
def parseSegPart (cs : List Char) : Option (List Seg) :=
  match cs.splitOn '[' with
  | [] => none
  | name :: brs =>
      (brs.mapM parseIdx).map (fun idxs => Seg.key (String.mk name) :: idxs.map Seg.idx)

/-- Modelled from the spec: the path syntax of `utils.ExtractObject` (§4.2),
`.`-separated keys with bracketed numeric indices for array elements; a
malformed path yields `none` and so resolves to nothing. -/
def parsePath (path : String) : Option (List Seg) :=
  ((path.toList.splitOn '.').mapM parseSegPart).map List.flatten

/-- Resolution of a parsed path against a document: `none` as soon as a
segment is missing or type-mismatched, the reached sub-value otherwise. -/
def extractSegs : Json → List Seg → Option Json
  | j, [] => some j
  | .obj o, .key k :: rest =>
      match o.lookup k with
      | some v => extractSegs v rest
      | none => none
  | .arr l, .idx n :: rest =>
      match l.getAt n with
      | some v => extractSegs v rest
      | none => none
  | _, _ :: _ => none

/-- Modelled from the spec: `utils.ExtractObject` (§4.2 `ExtractPath`), not
under the provided sources. Total: returns the resolved sub-value or `none`,
never an error. -/
def ExtractObject (doc : Json) (path : String) : Option Json :=
  match parsePath path with
  | some segs => extractSegs doc segs
  | none => none

/-- Tag map rendered as JSON object fields. -/
def tagsToObj : List (String × String) → JsonObj
  | [] => .nil
  | (k, v) :: rest => .cons k (.str v) (tagsToObj rest)

/-- Modelled from the spec: `azure.ExpandTags` (§4.4 `TagsFragment`), not under
the provided sources: the fragment `\x7b"tags": tags\x7d`. -/
def ExpandTags (ts : List (String × String)) : Json :=
  .obj (.cons "tags" (.obj (tagsToObj ts)) .nil)

/-- Modelled from the spec: `azure.ExpandLocation` (§4.4 `LocationFragment`),
not under the provided sources: the fragment `\x7b"location": loc\x7d`. -/
def ExpandLocation (loc : String) : Json :=
  .obj (.cons "location" (.str loc) .nil)

/-- The composite `(url, apiVersion)` resource identifier. -/
structure ResourceID where
  url : String
  apiVersion : String
deriving DecidableEq, Repr

/-- Modelled from the spec: `parse.NewResourceID` (§4.1 `New`), not under the
provided sources; constructs directly from raw inputs, no validation. -/
def NewResourceID (url apiVersion : String) : ResourceID :=
  ⟨url, apiVersion⟩

/-- Modelled from the spec: `parse.ResourceID`'s `ID()` (§4.1 `Encode`), not
under the provided sources. Uses the spec's length-prefixed scheme so the two
fields are never confusable whatever characters the url holds: a unary length
prefix for the url, a `:` separator, then the url and the api version. -/
def ResourceID.ID (id : ResourceID) : String :=
  String.mk (List.replicate id.url.toList.length '#' ++ ':' :: (id.url.toList ++ id.apiVersion.toList))

/-- The error taxonomy of §7, with remote-operation errors annotated by the
identifier and operation as in the source's `fmt.Errorf` calls. -/
inductive ProviderErr where
  | malformedIdentifier
  | invalidJson
  | invalidIdentityType
  | checkingPresence (id : ResourceID)
  | conflictAlreadyExists (id : ResourceID)
  | creatingUpdating (id : ResourceID)
  | reading (id : ResourceID)
  | deleting (id : ResourceID)
deriving DecidableEq, Repr

/-- Modelled from the spec: `parse.ResourceID` on a persisted string (§4.1
`Decode`), not under the provided sources; fails with `MalformedIdentifier`
when the separator is missing or either field is empty after the split. -/
def parseResourceID (s : String) : Except ProviderErr ResourceID :=
  let cs := s.toList
  let n := (cs.takeWhile (fun c => c = '#')).length
  match cs.dropWhile (fun c => c = '#') with
  | ':' :: rest =>
      if rest.take n ≠ [] ∧ rest.drop n ≠ [] then
        .ok ⟨String.mk (rest.take n), String.mk (rest.drop n)⟩
      else .error .malformedIdentifier
  | _ => .error .malformedIdentifier

/-- Outcome of one remote client call, as consumed by the source: the decoded
response body, the HTTP status code, and whether the call returned an error. -/
structure RemoteOutcome where
  body : Json
  status : Nat
  failed : Bool

/-- The stored `body` attribute string together with its `json.Unmarshal`
outcome: empty (unmarshal fails, zero length), non-empty but invalid JSON
(unmarshal fails), or valid JSON. -/
inductive BodyText where
  | empty : BodyText
  | invalid : BodyText
  | valid (j : Json) : BodyText

/-- Result of the read operation: object gone from state, an error, or the
stored body plus the projected output document. -/
inductive ReadResult where
  | removedFromState : ReadResult
  | err (e : ProviderErr) : ReadResult
  | ok (storedBody : Json) (output : Json) : ReadResult

/-- The stored-body computation of `resourceAzureGenericResourceRead` (lines
199–214): unmarshal the stored body; on failure with an empty body string seed
it from the remote body minus the unsupported properties (first import), on
failure otherwise surface the error; then store `GetUpdatedJson(desired,
remote)`. -/
def readStoredBody (bodyText : BodyText) (remote : Json) (unsupported : List String) : Except ProviderErr Json :=
  match bodyText with
  | .invalid => .error .invalidJson
  | .empty => .ok (GetUpdatedJson (GetIgnoredJson remote unsupported) remote)
  | .valid desired => .ok (GetUpdatedJson desired remote)

/-- The output-projection loop of `resourceAzureGenericResourceRead` (lines
219–235): with a non-empty path list, start from an empty object and merge in
each path's resolved sub-value, skipping unresolved paths; with no paths the
output is the empty object. -/
def computeOutput (paths : List String) (remote : Json) : Json :=
  match paths with
  | [] => .obj .nil
  | _ :: _ =>
      paths.foldl
        (fun acc p =>
          match ExtractObject remote p with
          | some part => GetMergedJson acc part
          | none => acc)
        (.obj .nil)

/-- Embedding of `resourceAzureGenericResourceRead` after the identifier has
been parsed: a failed `Get` with status 404 removes the object from state, any
other failed `Get` is an error annotated with the identifier; otherwise the
stored body and the output document are computed. -/
def resourceAzureGenericResourceRead (id : ResourceID) (get : RemoteOutcome) (bodyText : BodyText)
    (unsupported : List String) (paths : List String) : ReadResult :=
  if get.failed then
    if get.status = 404 then .removedFromState
    else .err (.reading id)
  else
    match readStoredBody bodyText get.body unsupported with
    | .error e => .err e
    | .ok stored => .ok stored (computeOutput paths get.body)

/-- Result of the delete operation. -/
inductive DeleteResult where
  | ok : DeleteResult
  | err (e : ProviderErr) : DeleteResult
deriving DecidableEq, Repr

/-- Embedding of `resourceAzureGenericResourceDelete` after the identifier has
been parsed (lines 244–253): any failed remote `Delete` — the source inspects
no status code here — is surfaced as an error annotated with the identifier. -/
def resourceAzureGenericResourceDelete (id : ResourceID) (del : RemoteOutcome) : DeleteResult :=
  if del.failed then .err (.deleting id) else .ok

/-- Modelled from the spec: the guard condition `len(utils.GetId(existing)) >
0` of the source, with `utils.GetId` not under the provided sources; per the
spec the pre-create guard fires exactly when the probe `Get` returns a
non-empty body. -/
def Json.nonEmptyBody : Json → Bool
  | .null => false
  | .obj .nil => false
  | _ => true

/-- Request-body composition of `resourceAzureGenericResourceCreateUpdate`
(lines 133–153): start from the parsed desired body, merge the tags fragment
when tags are set, then the location fragment when a location is set, then the
identity fragment when an identity is set. `azure.ExpandIdentity` is not under
the provided sources, so the identity input is its abstract outcome: absent,
failed (per the spec, `InvalidIdentityType`), or an expanded fragment. -/
def composeBody (desired : Json) (tags : Option (List (String × String)))
    (location : Option String) (identity : Option (Except ProviderErr Json)) :
    Except ProviderErr Json :=
  let b1 := match tags with
    | none => desired
    | some ts => GetMergedJson desired (ExpandTags ts)
  let b2 := match location with
    | none => b1
    | some l => GetMergedJson b1 (ExpandLocation l)
  match identity with
  | none => .ok b2
  | some (.error e) => .error e
  | some (.ok frag) => .ok (GetMergedJson b2 frag)

/-- Inputs to one run of `resourceAzureGenericResourceCreateUpdate`: the
configured attributes, the persisted identifier before the call, and oracle
outcomes for the remote calls the run may issue. -/
structure CreateUpdateInput where
  url : String
  apiVersion : String
  oldId : Option String
  isNew : Bool
  get : RemoteOutcome
  bodyText : BodyText
  tags : Option (List (String × String))
  location : Option String
  identity : Option (Except ProviderErr Json)
  createFailed : Bool
  createMethod : String
  updateMethod : String

/-- Observable outcome of one run of the create/update operation: the error if
any, the persisted identifier afterwards, and which remote calls were issued. -/
structure CreateUpdateResult where
  err : Option ProviderErr
  finalId : Option String
  getCalled : Bool
  createCalled : Bool
  methodUsed : Option String
deriving DecidableEq, Repr

/-- Embedding of `resourceAzureGenericResourceCreateUpdate` (lines 114–172) up
to `d.SetId`: for a new resource, probe with `Get` (a failed probe with status
other than 404 is an error; a non-empty probed body is the import-as-exists
conflict); unmarshal the body; merge tags, location and identity fragments in
that order; pick the create or update method; issue the remote `CreateUpdate`;
only after it succeeds is the persisted identifier set. -/
def resourceAzureGenericResourceCreateUpdate (inp : CreateUpdateInput) : CreateUpdateResult :=
  let id := NewResourceID inp.url inp.apiVersion
  if inp.isNew && inp.get.failed && !(inp.get.status == 404) then
    ⟨some (.checkingPresence id), inp.oldId, true, false, none⟩
  else if inp.isNew && inp.get.body.nonEmptyBody then
    ⟨some (.conflictAlreadyExists id), inp.oldId, true, false, none⟩
  else
    match inp.bodyText with
    | .empty => ⟨some .invalidJson, inp.oldId, inp.isNew, false, none⟩
    | .invalid => ⟨some .invalidJson, inp.oldId, inp.isNew, false, none⟩
    | .valid desired =>
        match composeBody desired inp.tags inp.location inp.identity with
        | .error e => ⟨some e, inp.oldId, inp.isNew, false, none⟩
        | .ok _ =>
            let method := if inp.isNew then inp.createMethod else inp.updateMethod
            if inp.createFailed then
              ⟨some (.creatingUpdating id), inp.oldId, inp.isNew, true, some method⟩
            else
              ⟨none, some id.ID, inp.isNew, true, some method⟩

theorem JsonObj.lookup_append (k : String) : ∀ (xs ys : JsonObj),
    JsonObj.lookup k (xs.append ys) =
      match xs.lookup k with
      | some v => some v
      | none => ys.lookup k
  | .nil, ys => by simp [JsonObj.append, JsonObj.lookup]
  | .cons k2 v tl, ys => by
      by_cases h : k2 = k
      · simp [JsonObj.append, JsonObj.lookup, h]
      · simp [JsonObj.append, JsonObj.lookup, h, JsonObj.lookup_append k tl ys]

theorem mergeObjValues_lookup (k : String) : ∀ (bs os : JsonObj),
    JsonObj.lookup k (mergeObjValues bs os) =
      (bs.lookup k).map (fun v =>
        match os.lookup k with
        | some w => GetMergedJson v w
        | none => v)
  | .nil, os => by simp [mergeObjValues, JsonObj.lookup]
  | .cons k2 v tl, os => by
      by_cases h : k2 = k
      · subst h
        cases hw : os.lookup k2 <;>
          simp [mergeObjValues, hw, JsonObj.lookup]
      · cases hw : os.lookup k2 <;>
          simp [mergeObjValues, hw, JsonObj.lookup, h, mergeObjValues_lookup k tl os]

theorem filterNotIn_lookup_notin (k : String) (bs : JsonObj) (hk : bs.hasKey k = false) :
    ∀ (os : JsonObj), JsonObj.lookup k (bs.filterNotIn os) = os.lookup k
  | .nil => rfl
  | .cons k2 v tl => by
      by_cases h : k2 = k
      · have hk2 : bs.hasKey k2 = false := by rw [h]; exact hk
        simp [JsonObj.filterNotIn, hk2, hk, JsonObj.lookup, h]
      · cases hh : bs.hasKey k2 <;>
          simp [JsonObj.filterNotIn, hh, JsonObj.lookup, h, filterNotIn_lookup_notin k bs hk tl]

/-- Lookup in the merge of two objects: a key of the base yields the merged or
kept base value, a key only of the overlay yields the overlay's value. -/
theorem merge_obj_lookup (k : String) (bs os : JsonObj) :
    JsonObj.lookup k (JsonObj.append (mergeObjValues bs os) (bs.filterNotIn os)) =
      match bs.lookup k with
      | some v => some (match os.lookup k with
          | some w => GetMergedJson v w
          | none => v)
      | none => os.lookup k := by
  rw [JsonObj.lookup_append, mergeObjValues_lookup]
  cases hb : bs.lookup k with
  | some v => simp
  | none =>
      have hk : bs.hasKey k = false := by simp [JsonObj.hasKey, hb]
      simp [filterNotIn_lookup_notin k bs hk os]

theorem JsonObj.append_nil : ∀ (xs : JsonObj), xs.append .nil = xs
  | .nil => rfl
  | .cons k v tl => by rw [JsonObj.append, JsonObj.append_nil tl]

theorem filterNotIn_eq_nil (bs : JsonObj) :
    ∀ (os : JsonObj), (∀ k, os.hasKey k = true → bs.hasKey k = true) →
      bs.filterNotIn os = .nil
  | .nil, _ => rfl
  | .cons k v tl, h => by
      have hk : bs.hasKey k = true := by
        apply h
        simp [JsonObj.hasKey, JsonObj.lookup]
      rw [JsonObj.filterNotIn, if_pos hk]
      apply filterNotIn_eq_nil bs tl
      intro k2 hk2
      apply h
      by_cases he : k = k2
      · simp [JsonObj.hasKey, JsonObj.lookup, he]
      · simpa [JsonObj.hasKey, JsonObj.lookup, he] using hk2

theorem JsonObj.lookup_eq_none_of_no_key {k : String} {o : JsonObj}
    (h : o.hasKey k = false) : o.lookup k = none := by
  cases hl : o.lookup k with
  | none => rfl
  | some v => rw [JsonObj.hasKey, hl] at h; simp at h

mutual

/-- Merging a well-formed JSON value with itself yields it back. -/
theorem mergeJson_self : ∀ (x : Json), x.wf = true → GetMergedJson x x = x
  | .null, _ => rfl
  | .bool _, _ => rfl
  | .num _, _ => rfl
  | .str _, _ => rfl
  | .arr _, _ => rfl
  | .obj o, h => by
      have ho : o.wf = true := by simpa [Json.wf] using h
      rw [GetMergedJson, mergeObjValues_agree o o ho (fun _ _ => rfl),
        filterNotIn_eq_nil o o (fun _ hk => hk), JsonObj.append_nil]

/-- When every key of a duplicate-free base object looks up in the overlay to
the base's own value, the per-entry merge map leaves the base unchanged. -/
theorem mergeObjValues_agree : ∀ (bs os : JsonObj), bs.wf = true →
    (∀ k, bs.hasKey k = true → os.lookup k = bs.lookup k) →
    mergeObjValues bs os = bs
  | .nil, _, _, _ => rfl
  | .cons k v tl, os, h, hag => by
      simp only [JsonObj.wf, Bool.and_eq_true, Bool.not_eq_true'] at h
      obtain ⟨⟨hnk, hv⟩, htl⟩ := h
      have hos : os.lookup k = some v := by
        have hh := hag k (by simp [JsonObj.hasKey, JsonObj.lookup])
        rw [hh]; simp [JsonObj.lookup]
      have hag2 : ∀ k2, tl.hasKey k2 = true → os.lookup k2 = tl.lookup k2 := by
        intro k2 hk2
        have hne : ¬(k = k2) := by
          intro he; rw [he] at hnk; rw [hnk] at hk2; cases hk2
        have hh := hag k2 (by simp [JsonObj.hasKey, JsonObj.lookup, hne]; exact hk2)
        rw [hh]; simp [JsonObj.lookup, hne]
      simp only [mergeObjValues, hos]
      rw [mergeJson_self v hv, mergeObjValues_agree tl os htl hag2]

end

mutual

/-- Reconciling a well-formed JSON value against itself yields it back. -/
theorem updatedJson_self : ∀ (x : Json), x.wf = true → GetUpdatedJson x x = x
  | .null, _ => rfl
  | .bool _, _ => rfl
  | .num _, _ => rfl
  | .str _, _ => rfl
  | .arr _, _ => rfl
  | .obj o, h => by
      have ho : o.wf = true := by simpa [Json.wf] using h
      rw [GetUpdatedJson, updatedObjValues_agree o o ho (fun _ _ => rfl)]

/-- When every key of a duplicate-free desired object looks up in the remote
to the desired object's own value, the per-entry reconcile map leaves it
unchanged. -/
theorem updatedObjValues_agree : ∀ (ds rs : JsonObj), ds.wf = true →
    (∀ k, ds.hasKey k = true → rs.lookup k = ds.lookup k) →
    updatedObjValues ds rs = ds
  | .nil, _, _, _ => rfl
  | .cons k v tl, rs, h, hag => by
      simp only [JsonObj.wf, Bool.and_eq_true, Bool.not_eq_true'] at h
      obtain ⟨⟨hnk, hv⟩, htl⟩ := h
      have hos : rs.lookup k = some v := by
        have hh := hag k (by simp [JsonObj.hasKey, JsonObj.lookup])
        rw [hh]; simp [JsonObj.lookup]
      have hag2 : ∀ k2, tl.hasKey k2 = true → rs.lookup k2 = tl.lookup k2 := by
        intro k2 hk2
        have hne : ¬(k = k2) := by
          intro he; rw [he] at hnk; rw [hnk] at hk2; cases hk2
        have hh := hag k2 (by simp [JsonObj.hasKey, JsonObj.lookup, hne]; exact hk2)
        rw [hh]; simp [JsonObj.lookup, hne]
      simp only [updatedObjValues, hos]
      rw [updatedJson_self v hv, updatedObjValues_agree tl rs htl hag2]

end

theorem stripKeys_lookup (k : String) (S : List String) : ∀ (o : JsonObj),
    (o.stripKeys S).lookup k = if S.contains k then none else o.lookup k
  | .nil => by simp [JsonObj.stripKeys, JsonObj.lookup]
  | .cons k2 v tl => by
      by_cases hk : k2 = k
      · subst hk
        by_cases hc : k2 ∈ S <;>
          simp [JsonObj.stripKeys, hc, JsonObj.lookup, stripKeys_lookup k2 S tl]
      · by_cases hc : k2 ∈ S <;>
          simp [JsonObj.stripKeys, hc, JsonObj.lookup, hk, stripKeys_lookup k S tl]

theorem stripKeys_wf (S : List String) : ∀ (o : JsonObj), o.wf = true →
    (o.stripKeys S).wf = true
  | .nil, _ => rfl
  | .cons k v tl, h => by
      simp only [JsonObj.wf, Bool.and_eq_true, Bool.not_eq_true'] at h
      obtain ⟨⟨hnk, hv⟩, htl⟩ := h
      by_cases hc : k ∈ S
      · simp [JsonObj.stripKeys, hc, stripKeys_wf S tl htl]
      · have hlk : (tl.stripKeys S).hasKey k = false := by
          simp [JsonObj.hasKey, stripKeys_lookup k S tl, hc,
            JsonObj.lookup_eq_none_of_no_key hnk]
        simp [JsonObj.stripKeys, hc, JsonObj.wf, hlk, hv, stripKeys_wf S tl htl]

/-- Reconciling a stripped well-formed remote body against the remote body
itself leaves the stripped body unchanged. -/
theorem updatedJson_strip_self (S : List String) : ∀ (remote : Json),
    remote.wf = true → GetUpdatedJson (GetIgnoredJson remote S) remote = GetIgnoredJson remote S
  | .null, _ => rfl
  | .bool _, _ => rfl
  | .num _, _ => rfl
  | .str _, _ => rfl
  | .arr _, _ => rfl
  | .obj o, h => by
      have ho : o.wf = true := by simpa [Json.wf] using h
      show GetUpdatedJson (.obj (o.stripKeys S)) (.obj o) = .obj (o.stripKeys S)
      rw [GetUpdatedJson]
      rw [updatedObjValues_agree (o.stripKeys S) o (stripKeys_wf S o ho)]
      intro k hk
      have hc : ¬(k ∈ S) := by
        intro hmem
        rw [JsonObj.hasKey, stripKeys_lookup k S o] at hk
        simp [hmem] at hk
      rw [stripKeys_lookup k S o]
      simp [hc]

theorem updatedObjValues_lookup (k : String) : ∀ (ds rs : JsonObj),
    JsonObj.lookup k (updatedObjValues ds rs) =
      (ds.lookup k).map (fun v =>
        match rs.lookup k with
        | some w => GetUpdatedJson v w
        | none => v)
  | .nil, rs => by simp [updatedObjValues, JsonObj.lookup]
  | .cons k2 v tl, rs => by
      by_cases h : k2 = k
      · subst h
        cases hw : rs.lookup k2 <;>
          simp [updatedObjValues, hw, JsonObj.lookup]
      · cases hw : rs.lookup k2 <;>
          simp [updatedObjValues, hw, JsonObj.lookup, h, updatedObjValues_lookup k tl rs]

theorem foldl_extract_eq_filterMap (remote : Json) : ∀ (l : List String) (acc : Json),
    List.foldl
      (fun acc p =>
        match ExtractObject remote p with
        | some part => GetMergedJson acc part
        | none => acc)
      acc l
    = List.foldl GetMergedJson acc (l.filterMap (ExtractObject remote))
  | [], _ => rfl
  | p :: ps, acc => by
      cases hp : ExtractObject remote p <;>
        simp [List.filterMap_cons, hp, foldl_extract_eq_filterMap remote ps]

/-- The output loop equals the order-preserving merge of exactly the resolved
paths' sub-values, unresolved paths contributing nothing. -/
theorem computeOutput_eq_filterMap (paths : List String) (remote : Json) :
    computeOutput paths remote
      = List.foldl GetMergedJson (.obj .nil) (paths.filterMap (ExtractObject remote)) := by
  cases paths with
  | nil => rfl
  | cons p ps => exact foldl_extract_eq_filterMap remote (p :: ps) (.obj .nil)

theorem takeWhile_replicate_hash (xs : List Char) : ∀ (n : Nat),
    (List.replicate n '#' ++ ':' :: xs).takeWhile (fun c => c = '#') = List.replicate n '#'
  | 0 => by
      have h0 : (decide (':' = '#')) = false := by decide
      simp [List.takeWhile_cons, h0]
  | m + 1 => by
      have h1 : (decide ('#' = '#')) = true := by decide
      simp [List.replicate_succ, List.takeWhile_cons, h1, takeWhile_replicate_hash xs m]

theorem dropWhile_replicate_hash (xs : List Char) : ∀ (n : Nat),
    (List.replicate n '#' ++ ':' :: xs).dropWhile (fun c => c = '#') = ':' :: xs
  | 0 => by
      have h0 : (decide (':' = '#')) = false := by decide
      simp [List.dropWhile_cons, h0]
  | m + 1 => by
      have h1 : (decide ('#' = '#')) = true := by decide
      simp [List.replicate_succ, List.dropWhile_cons, h1, dropWhile_replicate_hash xs m]

/-- Decoding an encoded identifier with non-empty fields recovers both fields
exactly, whatever characters the url contains. -/
theorem parseResourceID_roundtrip (u a : String) (hu : u ≠ "") (ha : a ≠ "") :
    parseResourceID (ResourceID.ID (NewResourceID u a)) = .ok (NewResourceID u a) := by
  have hud : u.data ≠ [] := by
    intro hd; apply hu; cases u; simp at hd; simp [hd]
  have had : a.data ≠ [] := by
    intro hd; apply ha; cases a; simp at hd; simp [hd]
  simp only [parseResourceID, ResourceID.ID, NewResourceID, String.toList]
  rw [takeWhile_replicate_hash, dropWhile_replicate_hash]
  simp only [List.length_replicate, List.take_left, List.drop_left]
  rw [if_pos ⟨hud, had⟩]

/-- Follows the spec's words (§4.5): the fragment list actually present, in
the fixed order tags, then location, then identity, for comparison with the
source's sequential conditional merging. -/
def specFragmentsInOrder (tags : Option (List (String × String)))
    (location : Option String) (identityFrag : Option Json) : List Json :=
  ([tags.map ExpandTags, location.map ExpandLocation, identityFrag]).filterMap id

/-- C1: on read with a parseable desired body, the stored body is
`GetUpdatedJson(desired, remote)`, which per top-level key takes the remote's
value when the remote has the key (recursively by the same rule), keeps the
desired value when the remote lacks it, and drops keys present only in the
remote; on the claim's concrete inputs the result is
`{"a":9,"b":{"c":2}}`. -/
theorem claim_C1 :
    (∀ (ds rs : JsonObj) (S : List String),
        readStoredBody (.valid (.obj ds)) (.obj rs) S = .ok (.obj (updatedObjValues ds rs)))
    ∧ (∀ (ds rs : JsonObj) (k : String),
        JsonObj.lookup k (updatedObjValues ds rs) =
          (ds.lookup k).map (fun v =>
            match rs.lookup k with
            | some w => GetUpdatedJson v w
            | none => v))
    ∧ readStoredBody
        (.valid (.obj (.cons "a" (.num 1) (.cons "b" (.obj (.cons "c" (.num 2) .nil)) .nil))))
        (.obj (.cons "a" (.num 9)
          (.cons "b" (.obj (.cons "c" (.num 2) (.cons "d" (.num 5) .nil)))
            (.cons "e" (.num 7) .nil))))
        []
      = .ok (.obj (.cons "a" (.num 9) (.cons "b" (.obj (.cons "c" (.num 2) .nil)) .nil))) :=
  ⟨fun _ _ _ => rfl, fun ds rs k => updatedObjValues_lookup k ds rs, rfl⟩

/-- C2: on read with an empty desired body (first import), the stored body is
the remote body minus the unsupported top-level properties. -/
theorem claim_C2 (remote : Json) (S : List String) (h : remote.wf = true) :
    readStoredBody .empty remote S = .ok (GetIgnoredJson remote S) := by
  show Except.ok (GetUpdatedJson (GetIgnoredJson remote S) remote) = _
  rw [updatedJson_strip_self S remote h]

theorem claim_C2_witness :
    readStoredBody .empty
      (.obj (.cons "id" (.str "X") (.cons "name" (.str "Y")
        (.cons "properties" (.obj (.cons "foo" (.num 1) .nil)) .nil))))
      ["id", "name"]
    = .ok (.obj (.cons "properties" (.obj (.cons "foo" (.num 1) .nil)) .nil)) :=
  (claim_C2
    (.obj (.cons "id" (.str "X") (.cons "name" (.str "Y")
      (.cons "properties" (.obj (.cons "foo" (.num 1) .nil)) .nil))))
    ["id", "name"] (by decide)).trans rfl

/-- C3: for a new resource whose existence probe succeeds with a non-empty
body, create/update fails with the conflict error, the probe was issued, and
the remote create call is not issued. -/
theorem claim_C3 (inp : CreateUpdateInput) (h1 : inp.isNew = true)
    (h2 : inp.get.failed = false) (h3 : inp.get.body.nonEmptyBody = true) :
    (resourceAzureGenericResourceCreateUpdate inp).err
        = some (.conflictAlreadyExists (NewResourceID inp.url inp.apiVersion))
    ∧ (resourceAzureGenericResourceCreateUpdate inp).getCalled = true
    ∧ (resourceAzureGenericResourceCreateUpdate inp).createCalled = false := by
  simp [resourceAzureGenericResourceCreateUpdate, h1, h2, h3]

theorem claim_C3_witness :
    (resourceAzureGenericResourceCreateUpdate
        ⟨"/subs/1/rg", "2021-04-01", none, true,
          ⟨.obj (.cons "id" (.str "/subs/1/rg") .nil), 200, false⟩,
          .valid (.obj .nil), none, none, none, false, "PUT", "PUT"⟩).err
      = some (.conflictAlreadyExists (NewResourceID "/subs/1/rg" "2021-04-01"))
    ∧ (resourceAzureGenericResourceCreateUpdate
        ⟨"/subs/1/rg", "2021-04-01", none, true,
          ⟨.obj (.cons "id" (.str "/subs/1/rg") .nil), 200, false⟩,
          .valid (.obj .nil), none, none, none, false, "PUT", "PUT"⟩).getCalled = true
    ∧ (resourceAzureGenericResourceCreateUpdate
        ⟨"/subs/1/rg", "2021-04-01", none, true,
          ⟨.obj (.cons "id" (.str "/subs/1/rg") .nil), 200, false⟩,
          .valid (.obj .nil), none, none, none, false, "PUT", "PUT"⟩).createCalled = false :=
  claim_C3 _ rfl rfl rfl

/-- C4 counterexample: a remote `Delete` failing with HTTP 404 — deleting an
already-absent object — is surfaced by the source's delete as an error
annotated with the identifier, not recovered into an "object is absent"
success as the claim states. -/
theorem claim_C4_counterexample :
    resourceAzureGenericResourceDelete (NewResourceID "/subs/1/rg" "2021-04-01")
        ⟨.null, 404, true⟩
      = .err (.deleting (NewResourceID "/subs/1/rg" "2021-04-01"))
    ∧ resourceAzureGenericResourceDelete (NewResourceID "/subs/1/rg" "2021-04-01")
        ⟨.null, 404, true⟩
      ≠ .ok := by
  decide

/-- C4 amended: on read, a failed remote `Get` with status 404 is recovered
locally into removal from state, and every other failed `Get` propagates as an
error annotated with the identifier and operation; on delete, every failed
remote `Delete` — status 404 included — propagates as an error annotated with
the identifier and operation. -/
theorem claim_C4_amended :
    (∀ (id : ResourceID) (get : RemoteOutcome) (bt : BodyText) (S ps : List String),
        get.failed = true → get.status = 404 →
        resourceAzureGenericResourceRead id get bt S ps = .removedFromState)
    ∧ (∀ (id : ResourceID) (get : RemoteOutcome) (bt : BodyText) (S ps : List String),
        get.failed = true → get.status ≠ 404 →
        resourceAzureGenericResourceRead id get bt S ps = .err (.reading id))
    ∧ (∀ (id : ResourceID) (del : RemoteOutcome),
        del.failed = true →
        resourceAzureGenericResourceDelete id del = .err (.deleting id)) := by
  refine ⟨?_, ?_, ?_⟩ <;> intros <;>
    simp [resourceAzureGenericResourceRead, resourceAzureGenericResourceDelete, *]

theorem claim_C4_witness :
    resourceAzureGenericResourceRead (NewResourceID "u" "v") ⟨.null, 404, true⟩ .empty [] []
      = .removedFromState
    ∧ resourceAzureGenericResourceRead (NewResourceID "u" "v") ⟨.null, 500, true⟩ .empty [] []
      = .err (.reading (NewResourceID "u" "v"))
    ∧ resourceAzureGenericResourceDelete (NewResourceID "u" "v") ⟨.null, 500, true⟩
      = .err (.deleting (NewResourceID "u" "v")) :=
  ⟨claim_C4_amended.1 _ _ _ _ _ rfl rfl,
   claim_C4_amended.2.1 _ _ _ _ _ rfl (by decide),
   claim_C4_amended.2.2 _ _ rfl⟩

/-- C5: the request body equals the fold of `GetMergedJson` over the desired
body and exactly the fragments whose structured field is present, in the fixed
order tags, location, identity; and on overlapping keys of two merged objects
the overlay (later fragment) wins per the merge semantics. -/
theorem claim_C5 :
    (∀ (desired : Json) (tags : Option (List (String × String)))
        (location : Option String) (identityFrag : Option Json),
        composeBody desired tags location (identityFrag.map Except.ok)
          = .ok (List.foldl GetMergedJson desired
              (specFragmentsInOrder tags location identityFrag)))
    ∧ (∀ (bs os : JsonObj), ∃ ms, GetMergedJson (.obj bs) (.obj os) = .obj ms ∧
        ∀ k, ms.lookup k =
          match bs.lookup k with
          | some v => some (match os.lookup k with
              | some w => GetMergedJson v w
              | none => v)
          | none => os.lookup k) := by
  constructor
  · intro desired tags location identityFrag
    cases tags <;> cases location <;> cases identityFrag <;> rfl
  · intro bs os
    exact ⟨_, rfl, fun k => merge_obj_lookup k bs os⟩

/-- C6: decoding the encoded identifier returns the original pair exactly, for
every pair with non-empty fields. -/
theorem claim_C6 (url apiVersion : String) (hu : url ≠ "") (ha : apiVersion ≠ "") :
    parseResourceID (ResourceID.ID (NewResourceID url apiVersion))
      = .ok (NewResourceID url apiVersion) :=
  parseResourceID_roundtrip url apiVersion hu ha

theorem claim_C6_witness :
    parseResourceID (ResourceID.ID (NewResourceID
        "/subscriptions/00/resourceGroups/my%20rg/providers/Microsoft.X/y" "2021-04-01"))
      = .ok (NewResourceID
        "/subscriptions/00/resourceGroups/my%20rg/providers/Microsoft.X/y" "2021-04-01") :=
  claim_C6 _ _ (by decide) (by decide)

/-- C7: the output document is the in-order merge of exactly the resolved
paths' sub-values — unresolved paths are skipped without trace — and it is the
empty object when the path list is empty or no path resolves; on the spec's
example only `properties.foo` resolves and its sub-value alone forms the
output. -/
theorem claim_C7 :
    (∀ (remote : Json), computeOutput [] remote = .obj .nil)
    ∧ (∀ (paths : List String) (remote : Json),
        (∀ p ∈ paths, ExtractObject remote p = none) →
        computeOutput paths remote = .obj .nil)
    ∧ (∀ (paths : List String) (remote : Json),
        computeOutput paths remote
          = List.foldl GetMergedJson (.obj .nil) (paths.filterMap (ExtractObject remote)))
    ∧ computeOutput ["properties.foo", "properties.bar"]
        (.obj (.cons "properties"
          (.obj (.cons "foo" (.obj (.cons "x" (.num 1) .nil)) .nil)) .nil))
      = .obj (.cons "x" (.num 1) .nil) := by
  refine ⟨fun _ => rfl, ?_, computeOutput_eq_filterMap, rfl⟩
  intro paths remote h
  rw [computeOutput_eq_filterMap, List.filterMap_eq_nil_iff.mpr h]
  rfl

theorem claim_C7_witness :
    computeOutput ["properties.bar"] (.obj .nil) = .obj .nil :=
  claim_C7.2.1 ["properties.bar"] (.obj .nil) (by
    intro p hp
    simp only [List.mem_singleton] at hp
    subst hp
    rfl)

/-- C8: path extraction is total — for every document and path it returns the
resolved sub-value or `none` — and a missing key, a key segment against a
non-object, a missing index, or an index segment against a non-array all yield
`none` rather than an error. -/
theorem claim_C8 :
    (∀ (doc : Json) (path : String),
        ExtractObject doc path = none ∨ ∃ v, ExtractObject doc path = some v)
    ∧ (∀ (o : JsonObj) (k : String) (rest : List Seg),
        o.lookup k = none → extractSegs (.obj o) (.key k :: rest) = none)
    ∧ (∀ (doc : Json) (k : String) (rest : List Seg),
        (∀ o, doc ≠ .obj o) → extractSegs doc (.key k :: rest) = none)
    ∧ (∀ (l : JsonList) (n : Nat) (rest : List Seg),
        l.getAt n = none → extractSegs (.arr l) (.idx n :: rest) = none)
    ∧ (∀ (doc : Json) (n : Nat) (rest : List Seg),
        (∀ l, doc ≠ .arr l) → extractSegs doc (.idx n :: rest) = none) := by
  refine ⟨?_, ?_, ?_, ?_, ?_⟩
  · intro doc path
    cases h : ExtractObject doc path with
    | none => exact Or.inl rfl
    | some v => exact Or.inr ⟨v, rfl⟩
  · intro o k rest h
    simp [extractSegs, h]
  · intro doc k rest h
    cases doc
    case obj o => exact absurd rfl (h o)
    all_goals rfl
  · intro l n rest h
    simp [extractSegs, h]
  · intro doc n rest h
    cases doc
    case arr l => exact absurd rfl (h l)
    all_goals rfl

theorem claim_C8_witness :
    (ExtractObject (.num 3) "a" = none ∨ ∃ v, ExtractObject (.num 3) "a" = some v)
    ∧ extractSegs (.obj .nil) [.key "a"] = none
    ∧ extractSegs (.num 3) [.key "a"] = none
    ∧ extractSegs (.arr .nil) [.idx 0] = none
    ∧ extractSegs (.num 3) [.idx 0] = none :=
  ⟨claim_C8.1 (.num 3) "a",
   claim_C8.2.1 .nil "a" [] rfl,
   claim_C8.2.2.1 (.num 3) "a" [] (fun _ h => Json.noConfusion h),
   claim_C8.2.2.2.1 .nil 0 [] rfl,
   claim_C8.2.2.2.2 (.num 3) 0 [] (fun _ h => Json.noConfusion h)⟩

/-- C9: merging a JSON value with itself yields the value back, for every
well-formed value (objects produced by Go's JSON decoding cannot hold
duplicate keys). -/
theorem claim_C9 (x : Json) (h : x.wf = true) : GetMergedJson x x = x :=
  mergeJson_self x h

theorem claim_C9_witness :
    GetMergedJson
      (.obj (.cons "a" (.num 1) (.cons "b" (.arr (.cons (.num 2) .nil)) .nil)))
      (.obj (.cons "a" (.num 1) (.cons "b" (.arr (.cons (.num 2) .nil)) .nil)))
    = .obj (.cons "a" (.num 1) (.cons "b" (.arr (.cons (.num 2) .nil)) .nil)) :=
  claim_C9 (.obj (.cons "a" (.num 1) (.cons "b" (.arr (.cons (.num 2) .nil)) .nil)))
    (by decide)

/-- C10: whenever the create/update operation ends in an error, the persisted
identifier is unchanged; the identifier is set — to the encoded identifier of
the configured pair — exactly when the remote CreateUpdate call was issued and
succeeded. -/
theorem claim_C10 (inp : CreateUpdateInput) :
    ((resourceAzureGenericResourceCreateUpdate inp).err.isSome = true →
      (resourceAzureGenericResourceCreateUpdate inp).finalId = inp.oldId)
    ∧ ((resourceAzureGenericResourceCreateUpdate inp).err = none →
      (resourceAzureGenericResourceCreateUpdate inp).finalId
          = some (NewResourceID inp.url inp.apiVersion).ID
        ∧ (resourceAzureGenericResourceCreateUpdate inp).createCalled = true) := by
  simp only [resourceAzureGenericResourceCreateUpdate]
  split
  · exact ⟨fun _ => rfl, fun hc => by cases hc⟩
  · split
    · exact ⟨fun _ => rfl, fun hc => by cases hc⟩
    · split
      · exact ⟨fun _ => rfl, fun hc => by cases hc⟩
      · exact ⟨fun _ => rfl, fun hc => by cases hc⟩
      · split
        · exact ⟨fun _ => rfl, fun hc => by cases hc⟩
        · split
          · exact ⟨fun _ => rfl, fun hc => by cases hc⟩
          · exact ⟨fun h => Bool.noConfusion h, fun _ => ⟨rfl, rfl⟩⟩

theorem claim_C10_witness :
    (resourceAzureGenericResourceCreateUpdate
        ⟨"u", "v", none, false, ⟨.null, 200, false⟩, .invalid,
          none, none, none, false, "PUT", "PUT"⟩).finalId = none
    ∧ ((resourceAzureGenericResourceCreateUpdate
        ⟨"u", "v", none, false, ⟨.null, 200, false⟩, .valid (.obj .nil),
          none, none, none, false, "PUT", "PUT"⟩).finalId
        = some (NewResourceID "u" "v").ID
      ∧ (resourceAzureGenericResourceCreateUpdate
        ⟨"u", "v", none, false, ⟨.null, 200, false⟩, .valid (.obj .nil),
          none, none, none, false, "PUT", "PUT"⟩).createCalled = true) :=
  ⟨(claim_C10 _).1 rfl, (claim_C10 _).2 rfl⟩
